import Mathlib

/-!
Verification of the XVG parsing-and-analysis core of GSAT/XVG.py.

The Python source is shallowly embedded: strings stay strings (operated on
through their character lists), numeric data becomes rationals, the normal
quantile used by the moving-average confidence interval is an abstract real
parameter, and every exit-with-message in the source becomes an explicit
error value of type XVGError.
-/

/-- Python str.isspace characters relevant to str.strip and str.split. -/
def pyIsSpace (c : Char) : Bool :=
  c == ' ' || c == '\t' || c == '\n' || c == '\r' || c == '\x0b' || c == '\x0c'

/-- Python s.strip(chars): remove leading and trailing characters satisfying p. -/
def pyStripChars (p : Char → Bool) (l : List Char) : List Char :=
  ((l.dropWhile p).reverse.dropWhile p).reverse

/-- Python line.strip() on a whole string. -/
def pyStrip (s : String) : String := String.mk (pyStripChars pyIsSpace s.toList)

/-- Python s.split(c) for a single separator character: keeps empty pieces,
and returns one (possibly empty) piece for the empty string. -/
def splitOnChar (c : Char) : List Char → List (List Char)
  | [] => [[]]
  | x :: xs =>
    match splitOnChar c xs with
    | [] => [[]]
    | h :: t => if x = c then [] :: h :: t else (x :: h) :: t

/-- Split a character list at every character satisfying p, keeping empty pieces. -/
def splitOnPred (p : Char → Bool) : List Char → List (List Char)
  | [] => [[]]
  | x :: xs =>
    match splitOnPred p xs with
    | [] => [[]]
    | h :: t => if p x then [] :: h :: t else (x :: h) :: t

/-- Python line.split() with no argument: split on whitespace runs,
discarding empty pieces. -/
def pyTokens (line : String) : List String :=
  ((splitOnPred pyIsSpace line.toList).filter (fun t => t ≠ [])).map String.mk

/-- Python sub in line: substring containment. -/
def pyContains (line sub : String) : Bool := decide (sub.toList <:+: line.toList)

/-- Python line.startswith(p). -/
def pyStartsWith (line p : String) : Bool := p.toList.isPrefixOf line.toList

/-- XVG.py line 115 etc: line.strip(a quote).split(a quote), last piece.
splitOnChar never returns an empty piece list, so getLastD's default is
never used. -/
def extractQuoted (line : String) : String :=
  String.mk ((splitOnChar '"' (pyStripChars (fun c => c == '"') line.toList)).getLastD [])

/-- Value of a digit run, as Python reads the integer part of a float literal. -/
def digitsVal (l : List Char) : ℕ := l.foldl (fun a c => a * 10 + (c.toNat - 48)) 0

/-- Python float(s) on the plain decimal literals produced by GROMACS data
columns: optional sign, digits, optional fraction. Tokens outside that shape
get value 0 (Python would raise there; no claim depends on that path, only
on which raw column is converted). -/
def pyFloat (s : String) : ℚ :=
  let l := s.toList
  let sl : ℚ × List Char :=
    match l with
    | '-' :: rest => (-1, rest)
    | '+' :: rest => (1, rest)
    | _ => (1, l)
  match splitOnChar '.' sl.2 with
  | [ip] => sl.1 * (digitsVal ip : ℚ)
  | [ip, fp] => sl.1 * ((digitsVal ip : ℚ) + (digitsVal fp : ℚ) / (10 ^ fp.length : ℚ))
  | _ => 0

/-- The error kinds of the spec's section 7; each stands for one
print-and-exit site of XVG.py. -/
inductive XVGError where
  | columnCountMismatch (line : String)
  | structuralError
  | invalidRange
  | invalidParameter
  | indexError
  | consistencyError
deriving Repr, DecidableEq

/-- The parse-time attributes set by XVG.__init__ (lines 87-94). -/
structure ParseState where
  xvg_title : String
  xvg_xlabel : String
  xvg_ylabel : String
  xvg_legends : List String
  xvg_column_num : ℕ
  xvg_row_num : ℕ
  xvg_columns : List (List String)
deriving Repr, DecidableEq

/-- The attribute defaults of XVG.__init__ before any line is read. -/
def initState : ParseState :=
  { xvg_title := "", xvg_xlabel := "", xvg_ylabel := "", xvg_legends := [],
    xvg_column_num := 0, xvg_row_num := 0, xvg_columns := [] }

/-- XVG.py lines 113-121: the metadata branch for a line starting with the
at sign. -/
def processAtLine (s : ParseState) (line : String) : ParseState :=
  if pyContains line "title" && !pyContains line "subtitle" then
    { s with xvg_title := extractQuoted line }
  else if pyContains line "xaxis" && pyContains line "label" then
    { s with xvg_xlabel := extractQuoted line }
  else if pyContains line "yaxis" && pyContains line "label" then
    { s with xvg_ylabel := extractQuoted line }
  else if pyStartsWith line "@ s" && pyContains line "legend" then
    { s with xvg_legends := s.xvg_legends ++ [extractQuoted line] }
  else s

/-- XVG.py lines 122-139: the data branch. On the first data row the columns
are created; a later row with a different token count is the
print-and-exit at line 130, embedded as a columnCountMismatch error carrying
the offending line. -/
def processDataLine (s : ParseState) (line : String) : Except XVGError ParseState :=
  let items := pyTokens line
  let s1 : ParseState :=
    if s.xvg_columns.length = 0 then
      { s with xvg_columns := List.replicate items.length [],
               xvg_column_num := items.length, xvg_row_num := 0 }
    else s
  if items.length ≠ s1.xvg_columns.length then
    Except.error (XVGError.columnCountMismatch line)
  else
    Except.ok { s1 with
      xvg_columns := List.zipWith (fun c t => c ++ [t]) s1.xvg_columns items,
      xvg_row_num := s1.xvg_row_num + 1 }

/-- XVG.py lines 110-139: one iteration of the line loop. -/
def processLine (s : ParseState) (line : String) : Except XVGError ParseState :=
  if pyStartsWith line "#" || pyStartsWith line "&" then Except.ok s
  else if pyStartsWith line "@" then Except.ok (processAtLine s line)
  else processDataLine s line

/-- The whole line loop of XVG.__init__. -/
def processLines (s : ParseState) (lines : List String) : Except XVGError ParseState :=
  lines.foldlM processLine s

/-- XVG.py line 107: strip every line and drop the ones that become empty. -/
def preprocess (input : List String) : List String :=
  (input.map pyStrip).filter (fun l => l ≠ "")

/-- A preprocessed line that reaches the data branch of the loop. -/
def isDataLine (l : String) : Bool :=
  !(pyStartsWith l "#" || pyStartsWith l "&" || pyStartsWith l "@")

/-- XVG.py line 160: the y-label split on commas, each piece stripped. -/
def ylabelItems (ylabel : String) : List String :=
  (splitOnChar ',' ylabel.toList).map (fun p => String.mk (pyStripChars pyIsSpace p))

/-- XVG.py lines 159-171: pair the y-label against the legends. Returns the
final legend headers and whether the warning at line 169 fires. The loop of
lines 163-164 writes index i of the heads copy for every i below the item
count, which in that branch equals the legend count. -/
def reconcileHeads (ylabel : String) (legends : List String) : List String × Bool :=
  if (ylabelItems ylabel).length = legends.length then
    ((List.range (ylabelItems ylabel).length).map
      (fun i => legends.getD i "" ++ " " ++ (ylabelItems ylabel).getD i ""), false)
  else if (ylabelItems ylabel).length = 1 ∧ ((ylabelItems ylabel).getD 0 "").length < 5 then
    (legends.map (fun h => h ++ " " ++ (ylabelItems ylabel).getD 0 ""), false)
  else
    (legends, true)

/-- XVG.py lines 154-174: build data_heads and data_columns from the parse
state. The two ifs of the source are mutually exclusive (legends empty
versus nonempty) and are applied in source order. -/
def postProcess (s : ParseState) : List String × List (List ℚ) :=
  let base : List String × List (List ℚ) :=
    ([s.xvg_xlabel], [(s.xvg_columns.getD 0 []).map pyFloat])
  let step1 : List String × List (List ℚ) :=
    if s.xvg_legends.length = 0 ∧ 1 < s.xvg_columns.length then
      (base.1 ++ [s.xvg_ylabel], base.2 ++ [(s.xvg_columns.getD 1 []).map pyFloat])
    else base
  if 0 < s.xvg_legends.length ∧ s.xvg_legends.length < s.xvg_columns.length then
    let heads := (reconcileHeads s.xvg_ylabel s.xvg_legends).1
    (step1.1 ++ heads,
     step1.2 ++ (List.range heads.length).map (fun i => (s.xvg_columns.getD (i + 1) []).map pyFloat))
  else step1

/-- The finished analysis object: the parse state plus data_heads and
data_columns (the AnalyzedDataset of the spec). -/
structure XVGData extends ParseState where
  data_heads : List String
  data_columns : List (List ℚ)
deriving Repr, DecidableEq

/-- XVG.__init__ on the list of raw file lines: the loop, the post-parse
validation of lines 141-152 (each column's length must equal the row count,
and there must be data at all), then the head/column pairing. The length
validation of the source walks columns by index below xvg_column_num; since
xvg_columns always has exactly xvg_column_num entries this is the same as
checking every column. -/
def parseXVG (input : List String) : Except XVGError XVGData :=
  match processLines initState (preprocess input) with
  | Except.error e => Except.error e
  | Except.ok s =>
    if s.xvg_columns.any (fun c => c.length != s.xvg_row_num) then
      Except.error XVGError.structuralError
    else if s.xvg_column_num = 0 ∨ s.xvg_row_num = 0 then
      Except.error XVGError.structuralError
    else
      Except.ok { toParseState := s, data_heads := (postProcess s).1,
                  data_columns := (postProcess s).2 }

/-- numpy mean of a column slice (np.average and np.mean agree here). The
empty slice, on which numpy warns and yields nan, gets the junk value 0
through rational division by zero; no claim touches that case. -/
def npMean (l : List ℚ) : ℚ := l.sum / l.length

/-- numpy population variance (np.std squared, ddof 0). -/
def npVar (l : List ℚ) : ℚ := ((l.map (fun x => (x - npMean l) ^ 2)).sum) / l.length

/-- numpy np.std: the square root of the population variance. The source
computes it in floating point; its exact value lives in the reals. -/
noncomputable def npStd (l : List ℚ) : ℝ := Real.sqrt ((npVar l : ℚ) : ℝ)

/-- Python column slicing l with optional start and stop bounds, as used with
the in-range indices admitted by calc_average's guards. -/
def pySlice (l : List ℚ) (start stop : Option ℕ) : List ℚ :=
  (l.take (stop.getD l.length)).drop (start.getD 0)

/-- XVG.calc_average (lines 189-219): guard the range, then per analyzed
column the mean and population standard deviation of the slice. -/
noncomputable def calc_average (d : XVGData) (start stop : Option ℕ) :
    Except XVGError (List String × List ℚ × List ℝ) :=
  if start.isSome ∧ stop.isSome ∧ stop.getD 0 ≤ start.getD 0 then
    Except.error XVGError.invalidRange
  else if (start.isSome ∧ d.xvg_row_num ≤ start.getD 0)
      ∨ (stop.isSome ∧ d.xvg_row_num ≤ stop.getD 0) then
    Except.error XVGError.invalidRange
  else
    Except.ok (d.data_heads,
      d.data_columns.map (fun c => npMean (pySlice c start stop)),
      d.data_columns.map (fun c => npStd (pySlice c start stop)))

/-- The trailing window column slice of XVG.calc_mvave at loop index i:
Python column with the slice from i minus windowsize up to i. -/
def mvaveWindow (col : List ℚ) (w i : ℕ) : List ℚ := (col.drop (i - w)).take w

/-- One column's moving averages (line 245 and the loop): windowsize
not-a-number sentinels (embedded as none), then one mean per index from
windowsize to row_num minus one. -/
def mvaveColumn (col : List ℚ) (w row_num : ℕ) : List (Option ℚ) :=
  List.replicate w none ++
    (List.range (row_num - w)).map (fun k => some (npMean (mvaveWindow col w (k + w))))

/-- One column's interval high bounds. scipy stats.norm.interval with the
given confidence, location ave and scale std returns the pair
(ave - z * std, ave + z * std) where z is the two-sided normal quantile of
the confidence; z is passed in abstractly since its value is transcendental. -/
noncomputable def mvHighColumn (col : List ℚ) (w row_num : ℕ) (z : ℝ) : List (Option ℝ) :=
  List.replicate w none ++
    (List.range (row_num - w)).map
      (fun k => some (((npMean (mvaveWindow col w (k + w)) : ℚ) : ℝ)
        + z * npStd (mvaveWindow col w (k + w))))

/-- One column's interval low bounds, see mvHighColumn. -/
noncomputable def mvLowColumn (col : List ℚ) (w row_num : ℕ) (z : ℝ) : List (Option ℝ) :=
  List.replicate w none ++
    (List.range (row_num - w)).map
      (fun k => some (((npMean (mvaveWindow col w (k + w)) : ℚ) : ℝ)
        - z * npStd (mvaveWindow col w (k + w))))

/-- XVG.calc_mvave (lines 221-260): guard windowsize and confidence, then
per column the moving averages and the interval bounds, returned in the
source's order (heads, moving averages, highs, lows). -/
noncomputable def calc_mvave (d : XVGData) (w : ℕ) (confidence : ℚ) (z : ℝ) :
    Except XVGError
      (List String × List (List (Option ℚ)) × List (List (Option ℝ)) × List (List (Option ℝ))) :=
  if w = 0 ∨ d.xvg_row_num / 2 < w then Except.error XVGError.invalidParameter
  else if confidence ≤ 0 ∨ 1 ≤ confidence then Except.error XVGError.invalidParameter
  else
    Except.ok (d.data_heads,
      d.data_columns.map (fun col => mvaveColumn col w d.xvg_row_num),
      d.data_columns.map (fun col => mvHighColumn col w d.xvg_row_num z),
      d.data_columns.map (fun col => mvLowColumn col w d.xvg_row_num z))

/-- numpy np.min via a fold, 0 on the empty list (never taken here). -/
def npMin (l : List ℚ) : ℚ :=
  match l with
  | [] => 0
  | x :: xs => xs.foldl min x

/-- numpy np.max via a fold, 0 on the empty list (never taken here). -/
def npMax (l : List ℚ) : ℚ :=
  match l with
  | [] => 0
  | x :: xs => xs.foldl max x

/-- Python int() on a rational: truncation toward zero. -/
def pyInt (q : ℚ) : ℤ := if 0 ≤ q then ⌊q⌋ else -⌊-q⌋

/-- XVG.py lines 353-355: the bucket of a value, with the maximum value
clamped from bucket bin into bucket bin minus one. -/
def bucketIndex (cmin w : ℚ) (bin : ℕ) (v : ℚ) : ℤ :=
  let i := pyInt ((v - cmin) / w)
  if i = (bin : ℤ) then (bin : ℤ) - 1 else i

/-- Python frequency with the bucket index incremented by one: indices in
range update the list, negative indices wrap from the end as Python list
indexing does, anything else is an IndexError (embedded as none). -/
def pyListIncr (l : List ℕ) (i : ℤ) : Option (List ℕ) :=
  if 0 ≤ i ∧ i < (l.length : ℤ) then
    some (l.set i.toNat (l.getD i.toNat 0 + 1))
  else if -(l.length : ℤ) ≤ i ∧ i < 0 then
    some (l.set ((l.length : ℤ) + i).toNat (l.getD ((l.length : ℤ) + i).toNat 0 + 1))
  else none

/-- The distribution computation of XVG.draw_distribution (lines 345-364)
for one column: bin the values when the bin window is nonzero (checking the
counts against row_num, the ConsistencyError of line 357, and converting to
percentages), else the single-bucket degenerate branch of line 362. -/
def distributionColumn (col : List ℚ) (bin : ℕ) (row_num : ℕ) :
    Except XVGError (List ℚ × List ℚ) :=
  let cmin := npMin col
  let cmax := npMax col
  let w := (cmax - cmin) / (bin : ℚ)
  if w ≠ 0 then
    match col.foldlM (fun freq v => pyListIncr freq (bucketIndex cmin w bin v))
        (List.replicate bin (0 : ℕ)) with
    | none => Except.error XVGError.indexError
    | some freq =>
      if freq.sum ≠ row_num then Except.error XVGError.consistencyError
      else Except.ok ((List.range bin).map (fun b => cmin + w * (b : ℚ)),
                      freq.map (fun f => (f : ℚ) * 100 / (row_num : ℚ)))
  else
    Except.ok ([cmin], [1])

/-- A dataset holding the single analyzed column 1 to 6, as the synthetic
test column of the spec's section 8. -/
def dsSix : XVGData :=
  { xvg_title := "", xvg_xlabel := "x", xvg_ylabel := "", xvg_legends := [],
    xvg_column_num := 1, xvg_row_num := 6,
    xvg_columns := [["1", "2", "3", "4", "5", "6"]],
    data_heads := ["x"], data_columns := [[1, 2, 3, 4, 5, 6]] }

/-- The moving-averages component of calc_mvave's return tuple (the second
member of the Python 4-tuple), empty on the error path. -/
noncomputable def mvavesOf (d : XVGData) (w : ℕ) (confidence : ℚ) (z : ℝ) :
    List (List (Option ℚ)) :=
  match calc_mvave d w confidence z with
  | Except.ok r => r.2.1
  | Except.error _ => []

/-- The error condition of claim C5, written from the spec's words: both
bounds given and start at least end, or a given bound at least row_num.
Compared against the guards the code actually runs. -/
def averageRangeInvalid (row_num : ℕ) (start stop : Option ℕ) : Prop :=
  (∃ a b, start = some a ∧ stop = some b ∧ b ≤ a)
  ∨ (∃ a, start = some a ∧ row_num ≤ a)
  ∨ (∃ b, stop = some b ∧ row_num ≤ b)

/-- The analysis object parseXVG builds for the two-line, two-column file
used as a concrete witness input. -/
def xvgEx7 : XVGData :=
  { xvg_title := "t", xvg_xlabel := "", xvg_ylabel := "", xvg_legends := [],
    xvg_column_num := 2, xvg_row_num := 2,
    xvg_columns := [["1", "3"], ["2", "4"]],
    data_heads := ["", ""], data_columns := [[1, 3], [2, 4]] }

attribute [local semireducible] Rat.mul Rat.add Rat.sub Rat.inv Rat.ofScientific

set_option maxRecDepth 8000

theorem rangeMapGetD_eq_zipWith :
    ∀ (as bs : List String), as.length = bs.length →
      (List.range as.length).map (fun i => as.getD i "" ++ " " ++ bs.getD i "") =
        List.zipWith (fun a b => a ++ " " ++ b) as bs := by
  intro as
  induction as with
  | nil =>
    intro bs h
    cases bs with
    | nil => rfl
    | cons b bs => simp at h
  | cons a as ih =>
    intro bs h
    cases bs with
    | nil => simp at h
    | cons b bs =>
      have h' : as.length = bs.length := by simpa using h
      simp only [List.length_cons, List.range_succ_eq_map, List.map_cons, List.map_map,
        List.zipWith_cons_cons, List.getD_cons_zero]
      refine congrArg (List.cons (a ++ " " ++ b)) ?_
      rw [← ih bs h']
      rfl

/-- C1: with legends declared and more raw columns than legends, the final
series headers come from the three-case pairing of the y-label pieces with
the legends: equal counts pair index by index, a single short piece is
appended to every legend, anything else keeps the legends and warns; the
three spec examples evaluate accordingly. -/
theorem c1_header_reconciliation :
    (∀ s : ParseState, 0 < s.xvg_legends.length →
        s.xvg_legends.length < s.xvg_columns.length →
        (postProcess s).1 = s.xvg_xlabel :: (reconcileHeads s.xvg_ylabel s.xvg_legends).1)
    ∧ (∀ (ylabel : String) (legends : List String),
        ((ylabelItems ylabel).length = legends.length →
          reconcileHeads ylabel legends =
            (List.zipWith (fun l i => l ++ " " ++ i) legends (ylabelItems ylabel), false))
        ∧ ((ylabelItems ylabel).length ≠ legends.length →
            (ylabelItems ylabel).length = 1 → ((ylabelItems ylabel).getD 0 "").length < 5 →
          reconcileHeads ylabel legends =
            (legends.map (fun h => h ++ " " ++ (ylabelItems ylabel).getD 0 ""), false))
        ∧ ((ylabelItems ylabel).length ≠ legends.length →
            ¬((ylabelItems ylabel).length = 1 ∧ ((ylabelItems ylabel).getD 0 "").length < 5) →
          reconcileHeads ylabel legends = (legends, true)))
    ∧ reconcileHeads "A, B" ["s1", "s2"] = (["s1 A", "s2 B"], false)
    ∧ reconcileHeads "nm" ["s1", "s2"] = (["s1 nm", "s2 nm"], false)
    ∧ reconcileHeads "Energy Components" ["s1", "s2"] = (["s1", "s2"], true) := by
  refine ⟨?_, ?_, by decide, by decide, by decide⟩
  · intro s h1 h2
    have hne : ¬(s.xvg_legends.length = 0 ∧ 1 < s.xvg_columns.length) := by
      rintro ⟨h0, -⟩; omega
    simp only [postProcess]
    rw [if_neg hne, if_pos ⟨h1, h2⟩]
    rfl
  · intro ylabel legends
    refine ⟨?_, ?_, ?_⟩
    · intro h
      unfold reconcileHeads
      rw [if_pos h]
      refine congrArg (fun x => (x, false)) ?_
      calc (List.range (ylabelItems ylabel).length).map
            (fun i => legends.getD i "" ++ " " ++ (ylabelItems ylabel).getD i "")
          = (List.range legends.length).map
            (fun i => legends.getD i "" ++ " " ++ (ylabelItems ylabel).getD i "") := by rw [h]
        _ = List.zipWith (fun l i => l ++ " " ++ i) legends (ylabelItems ylabel) :=
            rangeMapGetD_eq_zipWith legends (ylabelItems ylabel) h.symm
    · intro h1 h2 h3
      unfold reconcileHeads
      rw [if_neg h1, if_pos ⟨h2, h3⟩]
    · intro h1 h2
      unfold reconcileHeads
      rw [if_neg h1, if_neg h2]

theorem dropWhileOfAllFalse {α : Type} (p : α → Bool) (l : List α)
    (h : ∀ x ∈ l, p x = false) : l.dropWhile p = l := by
  cases l with
  | nil => rfl
  | cons x xs =>
    rw [List.dropWhile_cons, h x (List.mem_cons_self x xs)]
    simp

theorem pyStripCharsOfAllFalse (p : Char → Bool) (l : List Char)
    (h : ∀ x ∈ l, p x = false) : pyStripChars p l = l := by
  unfold pyStripChars
  rw [dropWhileOfAllFalse p l h,
    dropWhileOfAllFalse p l.reverse (fun x hx => h x (List.mem_reverse.mp hx)),
    List.reverse_reverse]

theorem splitOnCharOfNotMem (c : Char) :
    ∀ l : List Char, c ∉ l → splitOnChar c l = [l] := by
  intro l
  induction l with
  | nil => intro _; rfl
  | cons x xs ih =>
    intro h
    have hx : ¬(x = c) := fun e => h (e ▸ List.mem_cons_self x xs)
    have hxs : c ∉ xs := fun m => h (List.mem_cons_of_mem _ m)
    unfold splitOnChar
    rw [ih hxs]
    simp [hx]

theorem stringMkToList (s : String) : String.mk s.toList = s := rfl

/-- C4 counterexample: the title line with no quote character at all yields
the whole line, not the empty string, as the extracted title. -/
theorem c4_counterexample :
    extractQuoted "@ title hello" = "@ title hello"
    ∧ (processAtLine initState "@ title hello").xvg_title = "@ title hello"
    ∧ "@ title hello" ≠ "" :=
  ⟨rfl, rfl, by decide⟩

/-- C4 as amended: for a metadata line containing no quote character, the
extracted value (strip quotes, split on quotes, take the last piece) is the
entire line unchanged, not the empty string. -/
theorem c4_amended (line : String) (h : '"' ∉ line.toList) :
    extractQuoted line = line := by
  unfold extractQuoted
  have h1 : ∀ x ∈ line.toList, (x == '"') = false := by
    intro x hx
    exact beq_eq_false_iff_ne.mpr (fun e => h (e ▸ hx))
  rw [pyStripCharsOfAllFalse _ _ h1, splitOnCharOfNotMem _ _ h]
  exact stringMkToList line

theorem c4_witness : extractQuoted "@ title hello" = "@ title hello" :=
  c4_amended "@ title hello" (by decide)

theorem startsWithAtExcludes (l : String) (h : pyStartsWith l "@" = true) :
    pyStartsWith l "#" = false ∧ pyStartsWith l "&" = false := by
  have hat : "@".toList = ['@'] := rfl
  have hh : "#".toList = ['#'] := rfl
  have ha : "&".toList = ['&'] := rfl
  unfold pyStartsWith at h ⊢
  rw [hat] at h
  rw [hh, ha]
  cases hl : l.toList with
  | nil => rw [hl] at h; simp [List.isPrefixOf] at h
  | cons x xs =>
    rw [hl] at h
    have hx : x = '@' := by
      simp only [List.isPrefixOf, Bool.and_eq_true] at h
      exact (eq_of_beq h.1).symm
    subst hx
    constructor <;> simp [List.isPrefixOf]

theorem processAtLineTitle (s : ParseState) (line : String)
    (h2 : pyContains line "title" = true)
    (h3 : pyContains line "subtitle" = false) :
    processAtLine s line = { s with xvg_title := extractQuoted line } := by
  unfold processAtLine
  rw [h2, h3]
  rfl

theorem processLineTitle (s : ParseState) (line : String)
    (h1 : pyStartsWith line "@" = true)
    (h2 : pyContains line "title" = true)
    (h3 : pyContains line "subtitle" = false) :
    processLine s line = Except.ok { s with xvg_title := extractQuoted line } := by
  obtain ⟨hh, ha⟩ := startsWithAtExcludes line h1
  have hal := processAtLineTitle s line h2 h3
  unfold processLine
  rw [hh, ha, h1, hal]
  rfl

/-- C9: the classifier tests run in a fixed order over the whole line, so an
at-line containing the substring title and not subtitle is stored as the
title, even a legend declaration whose quoted text mentions a title; the
legend list is left untouched. -/
theorem c9_title_precedence (s : ParseState) (line : String)
    (h1 : pyStartsWith line "@" = true)
    (h2 : pyContains line "title" = true)
    (h3 : pyContains line "subtitle" = false) :
    processLine s line = Except.ok { s with xvg_title := extractQuoted line }
    ∧ (processAtLine s line).xvg_legends = s.xvg_legends :=
  ⟨processLineTitle s line h1 h2 h3, by rw [processAtLineTitle s line h2 h3]⟩

theorem c9_witness :
    processLine initState "@ s0 legend \"a title\"" =
        Except.ok { initState with xvg_title := extractQuoted "@ s0 legend \"a title\"" }
    ∧ (processAtLine initState "@ s0 legend \"a title\"").xvg_legends =
        initState.xvg_legends :=
  c9_title_precedence initState "@ s0 legend \"a title\"" (by decide) (by decide) (by decide)

/-- C10: each title, x-label or y-label line overwrites the stored value, so
the last such line wins, while each legend line appends to the legend list,
preserving encounter order; the branch behaviors are stated for every state
and checked on two-line files. -/
theorem c10_last_wins_append :
    (∀ (s : ParseState) (l : String), pyStartsWith l "@" = true →
        pyContains l "title" = true → pyContains l "subtitle" = false →
        processLine s l = Except.ok { s with xvg_title := extractQuoted l })
    ∧ (∀ (s : ParseState) (l : String), pyStartsWith l "@" = true →
        (pyContains l "title" && !pyContains l "subtitle") = false →
        pyContains l "xaxis" = true → pyContains l "label" = true →
        processLine s l = Except.ok { s with xvg_xlabel := extractQuoted l })
    ∧ (∀ (s : ParseState) (l : String), pyStartsWith l "@" = true →
        (pyContains l "title" && !pyContains l "subtitle") = false →
        (pyContains l "xaxis" && pyContains l "label") = false →
        pyContains l "yaxis" = true → pyContains l "label" = true →
        processLine s l = Except.ok { s with xvg_ylabel := extractQuoted l })
    ∧ (∀ (s : ParseState) (l : String), pyStartsWith l "@" = true →
        (pyContains l "title" && !pyContains l "subtitle") = false →
        (pyContains l "xaxis" && pyContains l "label") = false →
        (pyContains l "yaxis" && pyContains l "label") = false →
        pyStartsWith l "@ s" = true → pyContains l "legend" = true →
        processLine s l = Except.ok { s with xvg_legends := s.xvg_legends ++ [extractQuoted l] })
    ∧ processLines initState ["@ title \"a\"", "@ title \"b\""] =
        Except.ok { initState with xvg_title := "b" }
    ∧ processLines initState ["@ s0 legend \"u\"", "@ s1 legend \"v\""] =
        Except.ok { initState with xvg_legends := ["u", "v"] } := by
  refine ⟨?_, ?_, ?_, ?_, by rfl, by rfl⟩
  · intro s l h1 h2 h3
    exact processLineTitle s l h1 h2 h3
  · intro s l h1 ht hx hl
    obtain ⟨hh, ha⟩ := startsWithAtExcludes l h1
    unfold processLine
    rw [hh, ha, h1]
    unfold processAtLine
    rw [ht, hx, hl]
    rfl
  · intro s l h1 ht hx hy hl
    obtain ⟨hh, ha⟩ := startsWithAtExcludes l h1
    unfold processLine
    rw [hh, ha, h1]
    unfold processAtLine
    rw [ht, hx, hy, hl]
    rfl
  · intro s l h1 ht hx hy hs hl
    obtain ⟨hh, ha⟩ := startsWithAtExcludes l h1
    unfold processLine
    rw [hh, ha, h1]
    unfold processAtLine
    rw [ht, hx, hy, hs, hl]
    rfl

theorem foldlMinConst (c : ℚ) :
    ∀ (xs : List ℚ) (a : ℚ), (∀ x ∈ xs, x = c) → a = c → xs.foldl min a = c := by
  intro xs
  induction xs with
  | nil => intro a _ ha; exact ha
  | cons x xs ih =>
    intro a h ha
    have hx : x = c := h x (List.mem_cons_self x xs)
    have : min a x = c := by rw [ha, hx, min_self]
    exact ih (min a x) (fun y hy => h y (List.mem_cons_of_mem _ hy)) this

theorem foldlMaxConst (c : ℚ) :
    ∀ (xs : List ℚ) (a : ℚ), (∀ x ∈ xs, x = c) → a = c → xs.foldl max a = c := by
  intro xs
  induction xs with
  | nil => intro a _ ha; exact ha
  | cons x xs ih =>
    intro a h ha
    have hx : x = c := h x (List.mem_cons_self x xs)
    have : max a x = c := by rw [ha, hx, max_self]
    exact ih (max a x) (fun y hy => h y (List.mem_cons_of_mem _ hy)) this

theorem npMinConst (col : List ℚ) (c : ℚ) (hne : col ≠ [])
    (hc : ∀ x ∈ col, x = c) : npMin col = c := by
  cases col with
  | nil => exact absurd rfl hne
  | cons x xs =>
    exact foldlMinConst c xs x (fun y hy => hc y (List.mem_cons_of_mem _ hy))
      (hc x (List.mem_cons_self x xs))

theorem npMaxConst (col : List ℚ) (c : ℚ) (hne : col ≠ [])
    (hc : ∀ x ∈ col, x = c) : npMax col = c := by
  cases col with
  | nil => exact absurd rfl hne
  | cons x xs =>
    exact foldlMaxConst c xs x (fun y hy => hc y (List.mem_cons_of_mem _ hy))
      (hc x (List.mem_cons_self x xs))

/-- C3 counterexample: on the constant column 5,5,5,5 the distribution
computation returns the single bucket at 5 with frequency value 1, not 100,
so on the percent scale used by the non-degenerate branch the claimed
100 percent bucket is not what the code produces. -/
theorem c3_counterexample :
    distributionColumn [5, 5, 5, 5] 100 4 = Except.ok ([5], [1])
    ∧ ¬(distributionColumn [5, 5, 5, 5] 100 4 = Except.ok ([5], [100])) := by
  refine ⟨by rfl, ?_⟩
  intro h
  rw [show distributionColumn [5, 5, 5, 5] 100 4 = Except.ok ([5], [1]) from by rfl] at h
  have h2 : ([(5 : ℚ)], [(1 : ℚ)]) = ([(5 : ℚ)], [(100 : ℚ)]) := by
    injection h
  have h3 : [(1 : ℚ)] = [(100 : ℚ)] := congrArg Prod.snd h2
  have h4 : (1 : ℚ) = 100 := List.head_eq_of_cons_eq h3
  norm_num at h4

/-- C3 as amended: for every constant-valued column (bin width zero) the
distribution computation returns exactly one bucket located at the constant
value, carrying the frequency value 1 (the whole column, but not converted
to the percent scale of the non-degenerate branch). -/
theorem c3_amended (col : List ℚ) (c : ℚ) (bin row : ℕ)
    (hne : col ≠ []) (hc : ∀ x ∈ col, x = c) :
    distributionColumn col bin row = Except.ok ([c], [1]) := by
  have h1 : npMin col = c := npMinConst col c hne hc
  have h2 : npMax col = c := npMaxConst col c hne hc
  simp only [distributionColumn]
  rw [h1, h2, sub_self]
  norm_num

theorem c3_witness : distributionColumn [5, 5, 5, 5] 100 4 = Except.ok ([5], [1]) :=
  c3_amended [5, 5, 5, 5] 5 100 4 (by decide) (by decide)

theorem npStdOfVarQuarter (l : List ℚ) (h : npVar l = 1/4) : npStd l = 1/2 := by
  unfold npStd
  rw [h]
  rw [show (((1:ℚ)/4 : ℚ) : ℝ) = ((1/2 : ℝ))^2 by push_cast; norm_num]
  exact Real.sqrt_sq (by norm_num)

/-- C2 counterexample: the moving average of the column 1..6 with window
size 2 carries, at index 2, the mean of the trailing window holding the
values 1 and 2, which is 3/2 and not the claimed 5/2 (the mean of 2 and 3
appears at index 3 instead). -/
theorem c2_counterexample :
    (mvavesOf dsSix 2 (95/100) 0).getD 0 [] =
      [none, none, some (3/2), some (5/2), some (7/2), some (9/2)]
    ∧ ((mvavesOf dsSix 2 (95/100) 0).getD 0 []).getD 2 none ≠ some (5/2) :=
  ⟨by decide, by decide⟩

/-- C2 as amended: on the column 1..6 with window size 2, all per-column
result arrays have length 6, indices 0 and 1 hold the undefined sentinel,
and the entry at index 2 is the mean 3/2 of the trailing window with values
1 and 2, whose standard deviation is 1/2, with the confidence interval
symmetric about 3/2; z is the abstract two-sided normal quantile of the
confidence. -/
theorem c2_amended (z : ℝ) :
    calc_mvave dsSix 2 (95/100) z =
      Except.ok (["x"],
        [[none, none, some (3/2), some (5/2), some (7/2), some (9/2)]],
        [[none, none, some ((3:ℝ)/2 + z * (1/2)), some ((5:ℝ)/2 + z * (1/2)),
          some ((7:ℝ)/2 + z * (1/2)), some ((9:ℝ)/2 + z * (1/2))]],
        [[none, none, some ((3:ℝ)/2 - z * (1/2)), some ((5:ℝ)/2 - z * (1/2)),
          some ((7:ℝ)/2 - z * (1/2)), some ((9:ℝ)/2 - z * (1/2))]])
    ∧ mvaveWindow [1, 2, 3, 4, 5, 6] 2 2 = [1, 2]
    ∧ npMean [1, 2] = 3/2
    ∧ npStd [1, 2] = 1/2
    ∧ (((3:ℝ)/2 - z * (1/2)) + ((3:ℝ)/2 + z * (1/2))) / 2 = 3/2 := by
  have hw2 : mvaveWindow [1, 2, 3, 4, 5, 6] 2 (0 + 2) = [1, 2] := by decide
  have hw3 : mvaveWindow [1, 2, 3, 4, 5, 6] 2 (1 + 2) = [2, 3] := by decide
  have hw4 : mvaveWindow [1, 2, 3, 4, 5, 6] 2 (2 + 2) = [3, 4] := by decide
  have hw5 : mvaveWindow [1, 2, 3, 4, 5, 6] 2 (3 + 2) = [4, 5] := by decide
  have hm2 : npMean [(1:ℚ), 2] = 3/2 := by decide
  have hm3 : npMean [(2:ℚ), 3] = 5/2 := by decide
  have hm4 : npMean [(3:ℚ), 4] = 7/2 := by decide
  have hm5 : npMean [(4:ℚ), 5] = 9/2 := by decide
  have hs2 : npStd [(1:ℚ), 2] = 1/2 := npStdOfVarQuarter _ (by decide)
  have hs3 : npStd [(2:ℚ), 3] = 1/2 := npStdOfVarQuarter _ (by decide)
  have hs4 : npStd [(3:ℚ), 4] = 1/2 := npStdOfVarQuarter _ (by decide)
  have hs5 : npStd [(4:ℚ), 5] = 1/2 := npStdOfVarQuarter _ (by decide)
  refine ⟨?_, by decide, hm2, hs2, by ring⟩
  have hg1 : ¬((2:ℕ) = 0 ∨ dsSix.xvg_row_num / 2 < 2) := by decide
  have hg2 : ¬((95/100 : ℚ) ≤ 0 ∨ (1:ℚ) ≤ 95/100) := by decide
  unfold calc_mvave
  rw [if_neg hg1, if_neg hg2]
  refine congrArg Except.ok ?_
  simp only [Prod.mk.injEq]
  refine ⟨rfl, by decide, ?_, ?_⟩
  · show [mvHighColumn [1, 2, 3, 4, 5, 6] 2 6 z] = _
    refine congrArg (fun x => [x]) ?_
    show List.replicate 2 none ++ (List.range (6 - 2)).map _ = _
    rw [show (6 - 2 : ℕ) = 4 from rfl, show List.range 4 = [0, 1, 2, 3] from rfl]
    simp only [List.map_cons, List.map_nil, List.replicate, List.cons_append,
      List.nil_append, hw2, hw3, hw4, hw5, hm2, hm3, hm4, hm5, hs2, hs3, hs4, hs5]
    norm_num
  · show [mvLowColumn [1, 2, 3, 4, 5, 6] 2 6 z] = _
    refine congrArg (fun x => [x]) ?_
    show List.replicate 2 none ++ (List.range (6 - 2)).map _ = _
    rw [show (6 - 2 : ℕ) = 4 from rfl, show List.range 4 = [0, 1, 2, 3] from rfl]
    simp only [List.map_cons, List.map_nil, List.replicate, List.cons_append,
      List.nil_append, hw2, hw3, hw4, hw5, hm2, hm3, hm4, hm5, hs2, hs3, hs4, hs5]
    norm_num

/-- C5: calc_average fails with an InvalidRange error exactly when both
bounds are given with start at least end, or a given bound is at least
row_num; otherwise it returns, per analyzed column, the mean and the
population standard deviation of the half-open slice (the whole column when
a bound is omitted); on the column 1..6 the range from 1 to 4 selects the
values 2, 3, 4 and gives mean 3. -/
theorem c5_calc_average :
    (∀ (d : XVGData) (start stop : Option ℕ),
      ((∃ e, calc_average d start stop = Except.error e) ↔
        averageRangeInvalid d.xvg_row_num start stop))
    ∧ (∀ (d : XVGData) (start stop : Option ℕ),
        ¬averageRangeInvalid d.xvg_row_num start stop →
        calc_average d start stop =
          Except.ok (d.data_heads,
            d.data_columns.map (fun c => npMean (pySlice c start stop)),
            d.data_columns.map (fun c => npStd (pySlice c start stop))))
    ∧ pySlice [1, 2, 3, 4, 5, 6] (some 1) (some 4) = [2, 3, 4]
    ∧ npMean [2, 3, 4] = 3
    ∧ calc_average dsSix (some 1) (some 4) =
        Except.ok (["x"], [3], [npStd [2, 3, 4]]) := by
  have key : ∀ (d : XVGData) (start stop : Option ℕ),
      ((∃ e, calc_average d start stop = Except.error e) ↔
        averageRangeInvalid d.xvg_row_num start stop)
      ∧ (¬averageRangeInvalid d.xvg_row_num start stop →
        calc_average d start stop =
          Except.ok (d.data_heads,
            d.data_columns.map (fun c => npMean (pySlice c start stop)),
            d.data_columns.map (fun c => npStd (pySlice c start stop)))) := by
    intro d start stop
    unfold calc_average averageRangeInvalid
    rcases start with - | a <;> rcases stop with - | b <;>
      simp only [Option.isSome_none, Option.isSome_some, Option.getD_some, Option.getD_none,
        Bool.false_eq_true, Bool.true_eq_false, false_and, true_and, and_false, and_true,
        false_or, or_false, if_false, if_true, reduceCtorEq, exists_false,
        Option.some.injEq, exists_eq_left, exists_and_left, exists_eq_left',
        reduceIte] <;>
      first
        | (split_ifs <;> simp_all)
        | simp
  refine ⟨fun d start stop => (key d start stop).1, fun d start stop => (key d start stop).2,
    by decide, by decide, ?_⟩
  have h := (key dsSix (some 1) (some 4)).2 ?_
  · rw [h]
    refine congrArg Except.ok ?_
    simp only [Prod.mk.injEq]
    refine ⟨rfl, by decide, ?_⟩
    show [npStd (pySlice [1, 2, 3, 4, 5, 6] (some 1) (some 4))] = [npStd [2, 3, 4]]
    rw [show pySlice [1, 2, 3, 4, 5, 6] (some 1) (some 4) = [2, 3, 4] from by decide]
  · unfold averageRangeInvalid
    rintro (⟨x, y, hx, hy, hxy⟩ | ⟨x, hx, hr⟩ | ⟨x, hx, hr⟩) <;>
      simp_all [dsSix] <;> omega

theorem processAtLinePreserves (s : ParseState) (l : String) :
    (processAtLine s l).xvg_columns = s.xvg_columns
    ∧ (processAtLine s l).xvg_column_num = s.xvg_column_num
    ∧ (processAtLine s l).xvg_row_num = s.xvg_row_num := by
  unfold processAtLine
  split_ifs <;> exact ⟨rfl, rfl, rfl⟩

theorem processLineNotData (s : ParseState) (l : String) (h : isDataLine l = false) :
    ∃ s', processLine s l = Except.ok s'
      ∧ s'.xvg_columns = s.xvg_columns
      ∧ s'.xvg_column_num = s.xvg_column_num
      ∧ s'.xvg_row_num = s.xvg_row_num := by
  have h' : (pyStartsWith l "#" || pyStartsWith l "&" || pyStartsWith l "@") = true := by
    cases hX : (pyStartsWith l "#" || pyStartsWith l "&" || pyStartsWith l "@")
    · exfalso
      unfold isDataLine at h
      rw [hX] at h
      exact Bool.noConfusion h
    · rfl
  unfold processLine
  by_cases h1 : (pyStartsWith l "#" || pyStartsWith l "&") = true
  · rw [if_pos h1]
    exact ⟨s, rfl, rfl, rfl, rfl⟩
  · have h2 : pyStartsWith l "@" = true := by
      cases hA : pyStartsWith l "#" <;> cases hB : pyStartsWith l "&" <;>
        cases hC : pyStartsWith l "@" <;> simp_all
    rw [if_neg h1, if_pos h2]
    obtain ⟨e1, e2, e3⟩ := processAtLinePreserves s l
    exact ⟨processAtLine s l, rfl, e1, e2, e3⟩

theorem processLineData (s : ParseState) (l : String) (h : isDataLine l = true) :
    processLine s l = processDataLine s l := by
  have h' : (pyStartsWith l "#" || pyStartsWith l "&" || pyStartsWith l "@") = false := by
    cases hX : (pyStartsWith l "#" || pyStartsWith l "&" || pyStartsWith l "@")
    · rfl
    · exfalso
      unfold isDataLine at h
      rw [hX] at h
      exact Bool.noConfusion h
  have ha : pyStartsWith l "#" = false := by
    cases hx : pyStartsWith l "#" <;> simp_all
  have hb : pyStartsWith l "&" = false := by
    cases hx : pyStartsWith l "&" <;> simp_all
  have hc : pyStartsWith l "@" = false := by
    cases hx : pyStartsWith l "@" <;> simp_all
  unfold processLine
  rw [ha, hb, hc]
  rfl

theorem zipWithReplicateNil :
    ∀ ts : List String,
      List.zipWith (fun c t => c ++ [t]) (List.replicate ts.length ([] : List String)) ts =
        ts.map (fun t => [t]) := by
  intro ts
  induction ts with
  | nil => rfl
  | cons t ts ih => simp [List.replicate, ih]

theorem processDataLineFirst (s : ParseState) (l : String) (h0 : s.xvg_columns.length = 0) :
    processDataLine s l = Except.ok { s with
      xvg_columns := (pyTokens l).map (fun t => [t]),
      xvg_column_num := (pyTokens l).length,
      xvg_row_num := 1 } := by
  simp only [processDataLine]
  rw [if_pos h0]
  rw [if_neg (by simp)]
  rw [zipWithReplicateNil]

theorem processDataLineNext (s : ParseState) (l : String) (h0 : ¬s.xvg_columns.length = 0) :
    processDataLine s l =
      if (pyTokens l).length ≠ s.xvg_columns.length then
        Except.error (XVGError.columnCountMismatch l)
      else Except.ok { s with
        xvg_columns := List.zipWith (fun c t => c ++ [t]) s.xvg_columns (pyTokens l),
        xvg_row_num := s.xvg_row_num + 1 } := by
  simp only [processDataLine]
  rw [if_neg h0]

theorem processLinesConsOk (s s1 : ParseState) (x : String) (xs : List String)
    (h : processLine s x = Except.ok s1) :
    processLines s (x :: xs) = processLines s1 xs := by
  show processLine s x >>= (fun s' => processLines s' xs) = processLines s1 xs
  rw [h]
  rfl

theorem processLinesConsErr (s : ParseState) (x : String) (xs : List String) (e : XVGError)
    (h : processLine s x = Except.error e) :
    processLines s (x :: xs) = Except.error e := by
  show processLine s x >>= (fun s' => processLines s' xs) = Except.error e
  rw [h]
  rfl

theorem splitOnPredNeNil (p : Char → Bool) : ∀ l : List Char, splitOnPred p l ≠ [] := by
  intro l
  cases l with
  | nil => simp [splitOnPred]
  | cons x xs =>
    unfold splitOnPred
    rcases h : splitOnPred p xs with - | ⟨h1, t⟩
    · simp
    · split_ifs <;> simp

theorem dropWhileHeadFalse (p : Char → Bool) :
    ∀ (L : List Char) (x : Char), (L.dropWhile p).head? = some x → p x = false := by
  intro L
  induction L with
  | nil => intro x hx; simp [List.dropWhile] at hx
  | cons y ys ih =>
    intro x hx
    rw [List.dropWhile_cons] at hx
    by_cases hy : p y = true
    · rw [if_pos hy] at hx
      exact ih x hx
    · rw [if_neg hy] at hx
      have hyx : y = x := by simpa using hx
      subst hyx
      cases hpy : p y
      · rfl
      · exact absurd hpy hy

theorem dropWhileSuffix (p : Char → Bool) : ∀ l : List Char, l.dropWhile p <:+ l := by
  intro l
  induction l with
  | nil => exact List.suffix_refl []
  | cons x xs ih =>
    rw [List.dropWhile_cons]
    by_cases hx : p x = true
    · rw [if_pos hx]
      exact ih.trans (List.suffix_cons x xs)
    · rw [if_neg hx]

theorem pyStripCharsPrefix (p : Char → Bool) (l : List Char) :
    pyStripChars p l <+: l.dropWhile p := by
  unfold pyStripChars
  have h := dropWhileSuffix p (l.dropWhile p).reverse
  have h2 := List.reverse_prefix.mpr h
  rwa [List.reverse_reverse] at h2

theorem prefixHead (l1 l2 : List Char) (h : l1 <+: l2) (x : Char) (xs : List Char)
    (he : l1 = x :: xs) : l2.head? = some x := by
  obtain ⟨t, ht⟩ := h
  rw [← ht, he]
  rfl

theorem pyStripCharsHead (p : Char → Bool) (l : List Char) (x : Char) (xs : List Char)
    (h : pyStripChars p l = x :: xs) : p x = false := by
  exact dropWhileHeadFalse p l x (prefixHead _ _ (pyStripCharsPrefix p l) x xs h)

theorem pyTokensMkCons (x : Char) (xs : List Char) (hx : pyIsSpace x = false) :
    pyTokens (String.mk (x :: xs)) ≠ [] := by
  unfold pyTokens
  show (((splitOnPred pyIsSpace (x :: xs)).filter (fun t => t ≠ [])).map String.mk) ≠ []
  unfold splitOnPred
  rcases hs : splitOnPred pyIsSpace xs with - | ⟨h1, t⟩
  · exact absurd hs (splitOnPredNeNil pyIsSpace xs)
  · rw [hx]
    simp

theorem preprocessTokens (input : List String) :
    ∀ l ∈ preprocess input, pyTokens l ≠ [] := by
  intro l hl
  unfold preprocess at hl
  rw [List.mem_filter] at hl
  obtain ⟨hmem, hne⟩ := hl
  rw [List.mem_map] at hmem
  obtain ⟨a, -, rfl⟩ := hmem
  rcases hcs : pyStripChars pyIsSpace a.toList with - | ⟨x, xs⟩
  · exfalso
    have h1 : pyStrip a = "" := by
      unfold pyStrip
      rw [hcs]
    exact (of_decide_eq_true hne) h1
  · have hx : pyIsSpace x = false := pyStripCharsHead pyIsSpace a.toList x xs hcs
    have h2 : pyStrip a = String.mk (x :: xs) := by
      unfold pyStrip
      rw [hcs]
    rw [h2]
    exact pyTokensMkCons x xs hx

theorem processLinesMismatch (n : ℕ) (hn : n ≠ 0) :
    ∀ (lines : List String) (s : ParseState) (l : String),
      s.xvg_columns.length = n →
      ((lines.filter isDataLine).find? (fun x => (pyTokens x).length != n) = some l) →
      processLines s lines = Except.error (XVGError.columnCountMismatch l) := by
  intro lines
  induction lines with
  | nil =>
    intro s l _ hf
    simp at hf
  | cons x xs ih =>
    intro s l hlen hf
    by_cases hd : isDataLine x = true
    · rw [List.filter_cons_of_pos hd] at hf
      by_cases hp : ((pyTokens x).length != n) = true
      · rw [List.find?_cons_of_pos (List.filter isDataLine xs)
          (show (fun y => (pyTokens y).length != n) x = true from hp)] at hf
        have hl : x = l := Option.some.inj hf
        have herr : processLine s x = Except.error (XVGError.columnCountMismatch x) := by
          rw [processLineData s x hd, processDataLineNext s x (by omega)]
          rw [if_pos (by rw [hlen]; exact bne_iff_ne.mp hp)]
        rw [← hl]
        exact processLinesConsErr s x xs _ herr
      · rw [List.find?_cons_of_neg (List.filter isDataLine xs)
          (show ¬(fun y => (pyTokens y).length != n) x = true from hp)] at hf
        have hpn : (pyTokens x).length = n := by
          have := bne_eq_false_iff_eq.mp (Bool.not_eq_true _ |>.mp hp)
          exact this
        have hok : processLine s x = Except.ok { s with
            xvg_columns := List.zipWith (fun c t => c ++ [t]) s.xvg_columns (pyTokens x),
            xvg_row_num := s.xvg_row_num + 1 } := by
          rw [processLineData s x hd, processDataLineNext s x (by omega)]
          rw [if_neg (by rw [hlen, hpn]; exact fun hcon => hcon rfl)]
        rw [processLinesConsOk s _ x xs hok]
        exact ih _ l (by simp [List.length_zipWith, hlen, hpn]) hf
    · have hd' : isDataLine x = false := by
        cases hX : isDataLine x <;> simp_all
      rw [List.filter_cons_of_neg hd] at hf
      obtain ⟨s', hok, hcols, -, -⟩ := processLineNotData s x hd'
      rw [processLinesConsOk s s' x xs hok]
      exact ih s' l (by rw [hcols]; exact hlen) hf

theorem processLinesMismatchFromEmpty :
    ∀ (lines : List String) (s : ParseState) (d0 : String) (rest : List String) (l : String),
      s.xvg_columns.length = 0 →
      lines.filter isDataLine = d0 :: rest →
      pyTokens d0 ≠ [] →
      (rest.find? (fun x => (pyTokens x).length != (pyTokens d0).length) = some l) →
      processLines s lines = Except.error (XVGError.columnCountMismatch l) := by
  intro lines
  induction lines with
  | nil =>
    intro s d0 rest l _ hfil _ _
    simp at hfil
  | cons x xs ih =>
    intro s d0 rest l h0 hfil htok hf
    by_cases hd : isDataLine x = true
    · rw [List.filter_cons_of_pos hd] at hfil
      have hx : x = d0 := (List.cons.injEq _ _ _ _ ▸ hfil).1
      have hrest : xs.filter isDataLine = rest := (List.cons.injEq _ _ _ _ ▸ hfil).2
      subst hx
      have hok : processLine s x = Except.ok { s with
          xvg_columns := (pyTokens x).map (fun t => [t]),
          xvg_column_num := (pyTokens x).length,
          xvg_row_num := 1 } := by
        rw [processLineData s x hd]
        exact processDataLineFirst s x h0
      rw [processLinesConsOk s _ x xs hok]
      have hnz : (pyTokens x).length ≠ 0 := by
        intro hz
        exact htok (List.length_eq_zero.mp hz)
      apply processLinesMismatch (pyTokens x).length hnz xs _ l (by simp)
      rw [hrest]
      exact hf
    · have hd' : isDataLine x = false := by
        cases hX : isDataLine x <;> simp_all
      rw [List.filter_cons_of_neg hd] at hfil
      obtain ⟨s', hok, hcols, -, -⟩ := processLineNotData s x hd'
      rw [processLinesConsOk s s' x xs hok]
      exact ih s' d0 rest l (by rw [hcols]; exact h0) hfil htok hf

/-- C6: once the first data row has fixed the column count, a later data row
with a different whitespace-token count makes parsing fail with a
ColumnCountMismatch error carrying an offending row (the first such row),
and no dataset is produced; the five-row file whose fifth row grows a
fourth token fails naming that row. -/
theorem c6_column_count_mismatch :
    (∀ (input : List String) (d0 : String) (rest : List String),
      (preprocess input).filter isDataLine = d0 :: rest →
      (∃ l ∈ rest, (pyTokens l).length ≠ (pyTokens d0).length) →
      ∃ l ∈ rest, (pyTokens l).length ≠ (pyTokens d0).length ∧
        parseXVG input = Except.error (XVGError.columnCountMismatch l))
    ∧ parseXVG ["1 2 3", "4 5 6", "7 8 9", "10 11 12", "13 14 15 16"] =
        Except.error (XVGError.columnCountMismatch "13 14 15 16") := by
  refine ⟨?_, by rfl⟩
  intro input d0 rest hfil hex
  have hsome : (rest.find? (fun x => (pyTokens x).length != (pyTokens d0).length)).isSome := by
    rw [List.find?_isSome]
    obtain ⟨l, hmem, hne⟩ := hex
    exact ⟨l, hmem, bne_iff_ne.mpr hne⟩
  obtain ⟨l0, hf⟩ := Option.isSome_iff_exists.mp hsome
  have hmem := List.mem_of_find?_eq_some hf
  have hpred := List.find?_some hf
  have hne : (pyTokens l0).length ≠ (pyTokens d0).length := bne_iff_ne.mp hpred
  refine ⟨l0, hmem, hne, ?_⟩
  have hd0mem : d0 ∈ (preprocess input).filter isDataLine := by
    rw [hfil]
    exact List.mem_cons_self _ _
  have hd0tok : pyTokens d0 ≠ [] :=
    preprocessTokens input d0 (List.mem_of_mem_filter hd0mem)
  have herr := processLinesMismatchFromEmpty (preprocess input) initState d0 rest l0
    rfl hfil hd0tok hf
  unfold parseXVG
  rw [herr]

theorem getDMemOfLt {α : Type} (l : List α) (i : ℕ) (d : α) (h : i < l.length) :
    l.getD i d ∈ l := by
  rw [List.getD_eq_getElem l d h]
  exact List.getElem_mem h

theorem zipWithAppendLength :
    ∀ (cs : List (List String)) (ts : List String) (r : ℕ),
      cs.length = ts.length → (∀ c ∈ cs, c.length = r) →
      ∀ c ∈ List.zipWith (fun c t => c ++ [t]) cs ts, c.length = r + 1 := by
  intro cs
  induction cs with
  | nil =>
    intro ts r _ _ c hc
    simp at hc
  | cons c0 cs ih =>
    intro ts r hlen hall c hc
    cases ts with
    | nil => simp at hlen
    | cons t ts =>
      rw [List.zipWith_cons_cons] at hc
      rcases List.mem_cons.mp hc with h | h
      · rw [h]
        simp [hall c0 (List.mem_cons_self _ _)]
      · exact ih ts r (by simpa using hlen)
          (fun c hc => hall c (List.mem_cons_of_mem _ hc)) c h

theorem processLinesInvariant :
    ∀ (lines : List String) (s s' : ParseState),
      processLines s lines = Except.ok s' →
      (∀ l ∈ lines, isDataLine l = true → pyTokens l ≠ []) →
      s.xvg_columns.length = s.xvg_column_num →
      (∀ c ∈ s.xvg_columns, c.length = s.xvg_row_num) →
      (s.xvg_columns.length = 0 → s.xvg_row_num = 0) →
      s'.xvg_columns.length = s'.xvg_column_num
      ∧ (∀ c ∈ s'.xvg_columns, c.length = s'.xvg_row_num)
      ∧ (s'.xvg_columns.length = 0 → s'.xvg_row_num = 0)
      ∧ s'.xvg_row_num = s.xvg_row_num + (lines.filter isDataLine).length := by
  intro lines
  induction lines with
  | nil =>
    intro s s' hok htok h1 h2 h3
    have hs : s = s' := Except.ok.inj hok
    subst hs
    exact ⟨h1, h2, h3, by simp⟩
  | cons x xs ih =>
    intro s s' hok htok h1 h2 h3
    rcases hpl : processLine s x with e | s1
    · rw [processLinesConsErr s x xs e hpl] at hok
      exact Except.noConfusion hok
    · rw [processLinesConsOk s s1 x xs hpl] at hok
      have htok' : ∀ l ∈ xs, isDataLine l = true → pyTokens l ≠ [] :=
        fun l hl => htok l (List.mem_cons_of_mem _ hl)
      by_cases hd : isDataLine x = true
      · rw [processLineData s x hd] at hpl
        have hxtok : pyTokens x ≠ [] := htok x (List.mem_cons_self _ _) hd
        have hxlen : (pyTokens x).length ≠ 0 :=
          fun hz => hxtok (List.length_eq_zero.mp hz)
        by_cases h0 : s.xvg_columns.length = 0
        · rw [processDataLineFirst s x h0] at hpl
          have hs1 := Except.ok.inj hpl
          have hrow0 : s.xvg_row_num = 0 := h3 h0
          obtain ⟨i1, i2, i3, i4⟩ := ih s1 s' hok htok'
            (by rw [← hs1]; simp)
            (by
              rw [← hs1]
              intro c hc
              simp only [List.mem_map] at hc
              obtain ⟨t, -, rfl⟩ := hc
              rfl)
            (by
              rw [← hs1]
              intro hz
              simp only [List.length_map] at hz
              exact absurd hz hxlen)
          refine ⟨i1, i2, i3, ?_⟩
          rw [i4, ← hs1, List.filter_cons_of_pos hd, List.length_cons]
          simp only [hrow0]
          omega
        · rw [processDataLineNext s x h0] at hpl
          by_cases hm : (pyTokens x).length ≠ s.xvg_columns.length
          · rw [if_pos hm] at hpl
            exact Except.noConfusion hpl
          · rw [if_neg hm] at hpl
            have hs1 := Except.ok.inj hpl
            have hmm : (pyTokens x).length = s.xvg_columns.length := not_ne_iff.mp hm
            obtain ⟨i1, i2, i3, i4⟩ := ih s1 s' hok htok'
              (by rw [← hs1]; simp [List.length_zipWith, hmm, h1])
              (by
                rw [← hs1]
                exact zipWithAppendLength s.xvg_columns (pyTokens x) s.xvg_row_num
                  hmm.symm h2)
              (by
                rw [← hs1]
                intro hz
                exfalso
                apply h0
                simpa [List.length_zipWith, hmm] using hz)
            refine ⟨i1, i2, i3, ?_⟩
            rw [i4, ← hs1, List.filter_cons_of_pos hd, List.length_cons]
            simp only []
            omega
      · have hd' : isDataLine x = false := by
          cases hX : isDataLine x <;> simp_all
        obtain ⟨s'', hok2, e1, e2, e3⟩ := processLineNotData s x hd'
        rw [hpl] at hok2
        have hss : s1 = s'' := Except.ok.inj hok2
        subst hss
        obtain ⟨i1, i2, i3, i4⟩ := ih s1 s' hok htok'
          (by rw [e1, e2]; exact h1)
          (by intro c hc; rw [e3]; exact h2 c (e1 ▸ hc))
          (by rw [e1, e3]; exact h3)
        refine ⟨i1, i2, i3, ?_⟩
        rw [i4, e3, List.filter_cons_of_neg hd]

theorem reconcileHeadsLength (y : String) (ls : List String) :
    (reconcileHeads y ls).1.length = ls.length := by
  unfold reconcileHeads
  split_ifs with hc1 hc2
  · simp [hc1]
  · simp
  · rfl

theorem postProcessLength (s : ParseState) :
    (postProcess s).1.length = (postProcess s).2.length := by
  simp only [postProcess]
  split_ifs <;> simp

theorem postProcessHeadCol (s : ParseState) :
    (postProcess s).2.getD 0 [] = (s.xvg_columns.getD 0 []).map pyFloat := by
  simp only [postProcess]
  split_ifs <;> rfl

theorem postProcessColLengths (s : ParseState)
    (hcols : ∀ c ∈ s.xvg_columns, c.length = s.xvg_row_num)
    (hne : s.xvg_columns.length ≠ 0) :
    ∀ c ∈ (postProcess s).2, c.length = s.xvg_row_num := by
  have hget : ∀ i, i < s.xvg_columns.length →
      ((s.xvg_columns.getD i []).map pyFloat).length = s.xvg_row_num := by
    intro i hi
    rw [List.length_map]
    exact hcols _ (getDMemOfLt s.xvg_columns i [] hi)
  intro c hc
  simp only [postProcess] at hc
  split_ifs at hc with hc2 hc1 hc1
  · exact absurd hc1.1 (by omega)
  · rcases List.mem_append.mp hc with h | h
    · have : c = (s.xvg_columns.getD 0 []).map pyFloat := by simpa using h
      rw [this]
      exact hget 0 (by omega)
    · rw [List.mem_map] at h
      obtain ⟨i, hi, rfl⟩ := h
      rw [List.mem_range, reconcileHeadsLength] at hi
      exact hget (i + 1) (by omega)
  · rcases List.mem_append.mp hc with h | h
    · have : c = (s.xvg_columns.getD 0 []).map pyFloat := by simpa using h
      rw [this]
      exact hget 0 (by omega)
    · have : c = (s.xvg_columns.getD 1 []).map pyFloat := by simpa using h
      rw [this]
      exact hget 1 (by omega)
  · have : c = (s.xvg_columns.getD 0 []).map pyFloat := by simpa using hc
    rw [this]
    exact hget 0 (by omega)

/-- C7: every successfully parsed file yields a dataset whose header count
equals its value-list count, whose value lists all have exactly row_num
elements, whose row_num is the number of non-comment, non-metadata,
non-empty lines, and whose first value list is raw column 0 converted to
floats. -/
theorem c7_dataset_invariants (input : List String) (d : XVGData)
    (h : parseXVG input = Except.ok d) :
    d.data_heads.length = d.data_columns.length
    ∧ (∀ c ∈ d.data_columns, c.length = d.xvg_row_num)
    ∧ d.xvg_row_num = ((preprocess input).filter isDataLine).length
    ∧ d.data_columns.getD 0 [] = (d.xvg_columns.getD 0 []).map pyFloat := by
  unfold parseXVG at h
  split at h
  · exact Except.noConfusion h
  · rename_i s hps
    split at h
    · exact Except.noConfusion h
    · split at h
      · exact Except.noConfusion h
      · rename_i hAny hZ
        obtain ⟨i1, i2, i3, i4⟩ := processLinesInvariant (preprocess input) initState s hps
          (fun l hl _ => preprocessTokens input l hl)
          rfl
          (by intro c hc; simp [initState] at hc)
          (fun _ => rfl)
        have hcne : s.xvg_columns.length ≠ 0 := by
          rw [i1]
          intro hz
          exact hZ (Or.inl hz)
        have hd := Except.ok.inj h
        subst hd
        refine ⟨postProcessLength s, ?_, ?_, postProcessHeadCol s⟩
        · exact postProcessColLengths s i2 hcne
        · simpa [initState] using i4

theorem c7_witness :
    xvgEx7.data_heads.length = xvgEx7.data_columns.length
    ∧ (∀ c ∈ xvgEx7.data_columns, c.length = xvgEx7.xvg_row_num)
    ∧ xvgEx7.xvg_row_num =
        ((preprocess ["@ title \"t\"", "1 2", "3 4"]).filter isDataLine).length
    ∧ xvgEx7.data_columns.getD 0 [] = (xvgEx7.xvg_columns.getD 0 []).map pyFloat :=
  c7_dataset_invariants ["@ title \"t\"", "1 2", "3 4"] xvgEx7 (by rfl)

theorem foldlMinLe : ∀ (xs : List ℚ) (a b : ℚ), (b = a ∨ b ∈ xs) → xs.foldl min a ≤ b := by
  intro xs
  induction xs with
  | nil =>
    intro a b h
    rcases h with rfl | h
    · exact le_refl _
    · simp at h
  | cons x xs ih =>
    intro a b h
    rw [List.foldl_cons]
    rcases h with rfl | h
    · calc xs.foldl min (min b x) ≤ min b x := ih _ _ (Or.inl rfl)
        _ ≤ b := min_le_left _ _
    · rcases List.mem_cons.mp h with rfl | h
      · calc xs.foldl min (min a b) ≤ min a b := ih _ _ (Or.inl rfl)
          _ ≤ b := min_le_right _ _
      · exact ih _ _ (Or.inr h)

theorem leFoldlMax : ∀ (xs : List ℚ) (a b : ℚ), (b = a ∨ b ∈ xs) → b ≤ xs.foldl max a := by
  intro xs
  induction xs with
  | nil =>
    intro a b h
    rcases h with rfl | h
    · exact le_refl _
    · simp at h
  | cons x xs ih =>
    intro a b h
    rw [List.foldl_cons]
    rcases h with rfl | h
    · calc b ≤ max b x := le_max_left _ _
        _ ≤ xs.foldl max (max b x) := ih _ _ (Or.inl rfl)
    · rcases List.mem_cons.mp h with rfl | h
      · calc b ≤ max a b := le_max_right _ _
          _ ≤ xs.foldl max (max a b) := ih _ _ (Or.inl rfl)
      · exact ih _ _ (Or.inr h)

theorem npMinLe (col : List ℚ) (v : ℚ) (h : v ∈ col) : npMin col ≤ v := by
  cases col with
  | nil => simp at h
  | cons x xs =>
    unfold npMin
    rcases List.mem_cons.mp h with rfl | h
    · exact foldlMinLe xs v v (Or.inl rfl)
    · exact foldlMinLe xs x v (Or.inr h)

theorem leNpMax (col : List ℚ) (v : ℚ) (h : v ∈ col) : v ≤ npMax col := by
  cases col with
  | nil => simp at h
  | cons x xs =>
    unfold npMax
    rcases List.mem_cons.mp h with rfl | h
    · exact leFoldlMax xs v v (Or.inl rfl)
    · exact leFoldlMax xs x v (Or.inr h)

theorem binWindowPos (col : List ℚ) (bin : ℕ) (hne : col ≠ [])
    (hw : (npMax col - npMin col) / (bin : ℚ) ≠ 0) :
    0 < (npMax col - npMin col) / (bin : ℚ) := by
  rcases col with - | ⟨x, xs⟩
  · exact absurd rfl hne
  · have h1 : npMin (x :: xs) ≤ x := npMinLe _ x (List.mem_cons_self _ _)
    have h2 : x ≤ npMax (x :: xs) := leNpMax _ x (List.mem_cons_self _ _)
    have h3 : (0 : ℚ) ≤ (npMax (x :: xs) - npMin (x :: xs)) / (bin : ℚ) := by
      apply div_nonneg (by linarith)
      exact_mod_cast Nat.zero_le bin
    exact lt_of_le_of_ne h3 (Ne.symm hw)

theorem bucketIndexRange (col : List ℚ) (bin : ℕ) (hne : col ≠ []) (hbin : 0 < bin)
    (hw : (npMax col - npMin col) / (bin : ℚ) ≠ 0) (v : ℚ) (hv : v ∈ col) :
    0 ≤ bucketIndex (npMin col) ((npMax col - npMin col) / (bin : ℚ)) bin v
    ∧ bucketIndex (npMin col) ((npMax col - npMin col) / (bin : ℚ)) bin v < (bin : ℤ) := by
  have hwpos : 0 < (npMax col - npMin col) / (bin : ℚ) := binWindowPos col bin hne hw
  have hq0 : 0 ≤ (v - npMin col) / ((npMax col - npMin col) / (bin : ℚ)) :=
    div_nonneg (by linarith [npMinLe col v hv]) hwpos.le
  have hbq : (0 : ℚ) < (bin : ℚ) := by exact_mod_cast hbin
  have hqb : (v - npMin col) / ((npMax col - npMin col) / (bin : ℚ)) ≤ (bin : ℚ) := by
    rw [div_le_iff₀ hwpos]
    have hmul : (bin : ℚ) * ((npMax col - npMin col) / (bin : ℚ)) = npMax col - npMin col := by
      field_simp
    rw [hmul]
    linarith [leNpMax col v hv]
  have hfl : ⌊(v - npMin col) / ((npMax col - npMin col) / (bin : ℚ))⌋ ≤ (bin : ℤ) := by
    have h := Int.floor_le_floor hqb
    rwa [Int.floor_natCast] at h
  have hfl0 : 0 ≤ ⌊(v - npMin col) / ((npMax col - npMin col) / (bin : ℚ))⌋ :=
    Int.floor_nonneg.mpr hq0
  unfold bucketIndex pyInt
  rw [if_pos hq0]
  by_cases he : ⌊(v - npMin col) / ((npMax col - npMin col) / (bin : ℚ))⌋ = (bin : ℤ)
  · rw [if_pos he]
    omega
  · rw [if_neg he]
    omega

theorem sumSetIncr : ∀ (l : List ℕ) (n : ℕ), n < l.length →
    (l.set n (l.getD n 0 + 1)).sum = l.sum + 1 := by
  intro l
  induction l with
  | nil =>
    intro n h
    simp at h
  | cons x xs ih =>
    intro n h
    cases n with
    | zero =>
      simp only [List.getD_cons_zero, List.set_cons_zero, List.sum_cons]
      omega
    | succ n =>
      simp only [List.getD_cons_succ, List.set_cons_succ, List.sum_cons]
      rw [ih n (by simpa using h)]
      omega

theorem pyListIncrInRange (l : List ℕ) (i : ℤ) (h0 : 0 ≤ i) (h1 : i < (l.length : ℤ)) :
    pyListIncr l i = some (l.set i.toNat (l.getD i.toNat 0 + 1)) := by
  unfold pyListIncr
  rw [if_pos ⟨h0, h1⟩]

theorem foldIncrSum (g : ℚ → ℤ) :
    ∀ (vs : List ℚ) (freq : List ℕ),
      (∀ v ∈ vs, 0 ≤ g v ∧ g v < (freq.length : ℤ)) →
      ∃ freq', vs.foldlM (fun f v => pyListIncr f (g v)) freq = some freq'
        ∧ freq'.sum = freq.sum + vs.length ∧ freq'.length = freq.length := by
  intro vs
  induction vs with
  | nil =>
    intro freq _
    exact ⟨freq, rfl, by simp, rfl⟩
  | cons v vs ih =>
    intro freq hbound
    obtain ⟨hv0, hv1⟩ := hbound v (List.mem_cons_self _ _)
    have hlt : (g v).toNat < freq.length := by omega
    have hstep : pyListIncr freq (g v) =
        some (freq.set (g v).toNat (freq.getD (g v).toNat 0 + 1)) :=
      pyListIncrInRange _ _ hv0 hv1
    have hlen1 : (freq.set (g v).toNat (freq.getD (g v).toNat 0 + 1)).length = freq.length := by
      simp
    obtain ⟨freq', hfold, hsum, hlen⟩ := ih (freq.set (g v).toNat (freq.getD (g v).toNat 0 + 1))
      (by
        intro u hu
        rw [hlen1]
        exact hbound u (List.mem_cons_of_mem _ hu))
    refine ⟨freq', ?_, ?_, ?_⟩
    · show pyListIncr freq (g v) >>=
        (fun f => vs.foldlM (fun f v => pyListIncr f (g v)) f) = some freq'
      rw [hstep]
      exact hfold
    · rw [hsum, sumSetIncr freq (g v).toNat hlt, List.length_cons]
      omega
    · rw [hlen, hlen1]

/-- C8: for every non-constant column and positive bin count, every value
falls into a bucket index between 0 and bin minus one (the maximum clamped
into the last bucket), the raw counts sum to the row count, and the
distribution computation reaches neither the IndexError nor the
ConsistencyError branch; on the column 0..99 with 100 bins every bucket
gets frequency exactly 1 percent and the value 99 lands in the last
bucket. -/
theorem c8_distribution_consistency :
    (∀ (col : List ℚ) (bin : ℕ), col ≠ [] → 0 < bin →
        (npMax col - npMin col) / (bin : ℚ) ≠ 0 →
        ∃ freq,
          col.foldlM (fun f v => pyListIncr f
              (bucketIndex (npMin col) ((npMax col - npMin col) / (bin : ℚ)) bin v))
            (List.replicate bin 0) = some freq
          ∧ freq.sum = col.length
          ∧ distributionColumn col bin col.length =
              Except.ok
                ((List.range bin).map
                  (fun b => npMin col + (npMax col - npMin col) / (bin : ℚ) * (b : ℚ)),
                 freq.map (fun f => (f : ℚ) * 100 / (col.length : ℚ))))
    ∧ distributionColumn (List.map (fun n : ℕ => (n : ℚ)) (List.range 100)) 100 100 =
        Except.ok (List.map (fun b : ℕ => (99 : ℚ) / 100 * (b : ℚ)) (List.range 100),
                   List.replicate 100 1) := by
  refine ⟨?_, by rfl⟩
  intro col bin hne hbin hw
  obtain ⟨freq, hfold, hsum, hlen⟩ := foldIncrSum
    (bucketIndex (npMin col) ((npMax col - npMin col) / (bin : ℚ)) bin) col
    (List.replicate bin 0)
    (by
      intro v hv
      have h := bucketIndexRange col bin hne hbin hw v hv
      simpa [List.length_replicate] using h)
  have hsum' : freq.sum = col.length := by
    rw [hsum]
    simp [List.sum_replicate]
  refine ⟨freq, hfold, hsum', ?_⟩
  simp only [distributionColumn]
  rw [if_pos hw]
  simp only [hfold]
  rw [if_neg (fun hcon => hcon hsum')]
